import Mathlib

/-!
# Sensor data processor: transformation pipeline

A shallow embedding of `sensor-data-processor/src/main.cpp`.

The program applies an ordered list of unary numeric steps (`filter`, `convert`,
`scale`) to each element of a batch, once over bare numbers (`firstway`) and once
over `SensorReading` records (`secondway`).

Two numeric models of the C++ `double` are used.

* Exact model: a `double` is a rational number, so a value is finite and is not a NaN,
  and arithmetic is exact.  The decimal literals of the source (`102.0`, `1000.0`,
  `101.8`, ...) denote the rationals they spell.  The namespaces `firstway` and
  `secondway` hold the program over this model.
* IEEE 754 binary64 model: the type `Double` has NaN, the two infinities and the finite
  values; comparisons with a NaN are false; a quotient or product is the exact result
  rounded to the nearest double, ties to even, with gradual underflow and overflow to
  an infinity.  The namespaces `firstway.ieee` and `secondway.ieee` hold the same
  lambdas over this model.  It is used where a statement depends on NaN or on rounding.

The range-`for` loops of the source are embedded as recursive functions that carry
the loop's mutable variable (`result`, `processedData`) as an accumulator;
`push_back` appends at the end of the accumulator.
-/

/-- The record `struct SensorReading { double value; double timestamp; std::string sensor_id; }`. -/
structure SensorReading where
  value : ℚ
  timestamp : ℚ
  sensor_id : String
  deriving DecidableEq, Repr

/-- The inner loop shared by both routines:
`double result = init; for (const auto &step : processingSteps) result = step(result);`
with `result` as the accumulator. -/
def applySteps : List (ℚ → ℚ) → ℚ → ℚ
  | [], result => result
  | step :: rest, result => applySteps rest (step result)

namespace firstway

/-- The sample data: `std::vector<double> rawData = {102.3, 101.8, 999.9, 102.1, 101.5}`. -/
def rawData : List ℚ := [102.3, 101.8, 999.9, 102.1, 101.5]

/-- The local `double threshold = 102.0;`. -/
def threshold : ℚ := 102.0

/-- The lambda `[threshold](double value) { return value > threshold ? -1.0 : value; }`;
the captured `threshold` is the first argument. -/
def filter (threshold : ℚ) (value : ℚ) : ℚ :=
  if value > threshold then -1.0 else value

/-- The lambda `[](double value) { return value > 0 ? value / 1000.0 : -1.0; }`. -/
def convert (value : ℚ) : ℚ :=
  if value > 0 then value / 1000.0 else -1.0

/-- The lambda `[](double value) { return value * 2.0; }`. -/
def scale (value : ℚ) : ℚ :=
  value * 2.0

/-- The local `double testValue = 101.8;`. -/
def testValue : ℚ := 101.8

/-- The manual composition: `double result = filter(testValue); result = convert(result);`. -/
def manualResult : ℚ :=
  let result := filter threshold testValue
  let result := convert result
  result

/-- The vector `processingSteps = {filter, convert, scale}`. -/
def processingSteps : List (ℚ → ℚ) := [filter threshold, convert, scale]

/-- The batch loop
`for (const auto &value : rawData) { double result = value; <inner loop>; processedData.push_back(result); }`
over the remaining input, with `processedData` as the accumulator. -/
def batchLoop (steps : List (ℚ → ℚ)) : List ℚ → List ℚ → List ℚ
  | [], processedData => processedData
  | value :: rest, processedData =>
      let result := applySteps steps value
      batchLoop steps rest (processedData ++ [result])

/-- The batch run of `firstway` on an input vector: `processedData` starts empty. -/
def processBatch (steps : List (ℚ → ℚ)) (rawData : List ℚ) : List ℚ :=
  batchLoop steps rawData []

/-- The `processedData` that `firstway` prints. -/
def processedData : List ℚ := processBatch processingSteps rawData

end firstway

namespace secondway

/-- The sample data pushed into `rawData`, one `SensorReading` per `push_back`. -/
def rawData : List SensorReading :=
  [ ⟨102.3, 1622548800.0, "sensor_1"⟩,
    ⟨101.8, 1622548860.0, "sensor_2"⟩,
    ⟨999.9, 1622548920.0, "sensor_3"⟩,
    ⟨102.1, 1622548980.0, "sensor_4"⟩,
    ⟨101.5, 1622549040.0, "sensor_5"⟩ ]

/-- The local `double threshold = 102.0;`. -/
def threshold : ℚ := 102.0

/-- The lambda `[threshold](double value) { return value > threshold ? -1.0 : value; }`;
the captured `threshold` is the first argument. -/
def filter (threshold : ℚ) (value : ℚ) : ℚ :=
  if value > threshold then -1.0 else value

/-- The lambda `[](double value) { return value > 0 ? value / 1000.0 : -1.0; }`. -/
def convert (value : ℚ) : ℚ :=
  if value > 0 then value / 1000.0 else -1.0

/-- The lambda `[](double value) { return value * 2.0; }`. -/
def scale (value : ℚ) : ℚ :=
  value * 2.0

/-- The local `double testValue = 101.8;`. -/
def testValue : ℚ := 101.8

/-- The manual composition: `double result = filter(testValue); result = convert(result);`. -/
def manualResult : ℚ :=
  let result := filter threshold testValue
  let result := convert result
  result

/-- The vector `processingSteps = {filter, convert, scale}`. -/
def processingSteps : List (ℚ → ℚ) := [filter threshold, convert, scale]

/-- The batch loop
`for (const auto &value : rawData) { double result = value->value; <inner loop>;
 processedData.push_back(SensorReading{result, value->timestamp, value->sensor_id}); }`
over the remaining input, with `processedData` as the accumulator. -/
def batchLoop (steps : List (ℚ → ℚ)) : List SensorReading → List SensorReading → List SensorReading
  | [], processedData => processedData
  | value :: rest, processedData =>
      let result := applySteps steps value.value
      let processed : SensorReading := ⟨result, value.timestamp, value.sensor_id⟩
      batchLoop steps rest (processedData ++ [processed])

/-- The batch run of `secondway` on an input vector: `processedData` starts empty. -/
def processBatch (steps : List (ℚ → ℚ)) (rawData : List SensorReading) : List SensorReading :=
  batchLoop steps rawData []

/-- The `processedData` that `secondway` builds. -/
def processedData : List SensorReading := processBatch processingSteps rawData

end secondway

/-! ## The steps with division as a partial operation -/

/-- Division as a partial operation: there is no result when the divisor is zero. -/
def checkedDiv (a b : ℚ) : Option ℚ :=
  if b = 0 then none else some (a / b)

/-- The three kinds of step the program builds: the filter lambda with its captured
threshold, the convert lambda and the scale lambda. -/
inductive Step where
  | filter (threshold : ℚ)
  | convert
  | scale
  deriving DecidableEq, Repr

namespace Step

/-- The lambda of `firstway` that a step stands for. -/
def toFun : Step → ℚ → ℚ
  | filter threshold => firstway.filter threshold
  | convert => firstway.convert
  | scale => firstway.scale

/-- The body of each lambda, evaluated with the division of convert as a partial
operation: `value > threshold ? -1.0 : value`, `value > 0 ? value / 1000.0 : -1.0`,
`value * 2.0`. -/
def run : Step → ℚ → Option ℚ
  | filter threshold, value => some (if value > threshold then -1.0 else value)
  | convert, value => if value > 0 then checkedDiv value 1000.0 else some (-1.0)
  | scale, value => some (value * 2.0)

end Step

/-- The inner loop `for (const auto &step : processingSteps) result = step(result);`
over fallible steps: it ends without a result at the first step that has none. -/
def runSteps : List Step → ℚ → Option ℚ
  | [], result => some result
  | step :: rest, result =>
      match step.run result with
      | none => none
      | some next => runSteps rest next

/-! ## IEEE 754 binary64 -/

/-- A C++ `double`: a NaN, an infinity, or a finite value given by the rational it
denotes.  The two zeros are one value `fin 0`: they compare equal and the program never
divides by a zero.  The doubles proper are the finite values that `Double.round` leaves
unchanged; every statement below holds for all finite values. -/
inductive Double where
  | nan
  | posInf
  | negInf
  | fin (q : ℚ)
  deriving DecidableEq, Repr

namespace Double

/-- Rounding of a rational to the nearest integer, ties to the even one. -/
def roundNearestEven (x : ℚ) : ℤ :=
  if x - ⌊x⌋ < 1 / 2 then ⌊x⌋
  else if 1 / 2 < x - ⌊x⌋ then ⌊x⌋ + 1
  else if ⌊x⌋ % 2 = 0 then ⌊x⌋ else ⌊x⌋ + 1

/-- The exponent of the spacing of the doubles around `q`: 52 below the binary exponent
of `q`, which is at least -1022 (below `2 ^ (-1022)` the spacing is `2 ^ (-1074)`). -/
def ulpExp (q : ℚ) : ℤ :=
  max (Int.log 2 |q|) (-1022) - 52

/-- The multiple of `2 ^ ulpExp q` nearest to `q`, ties to the even multiple. -/
def roundQ (q : ℚ) : ℚ :=
  (roundNearestEven (q / 2 ^ ulpExp q) : ℚ) * 2 ^ ulpExp q

/-- The double that an exact result `q` rounds to: an infinity once the rounded value
reaches `2 ^ 1024`. -/
def round (q : ℚ) : Double :=
  if 2 ^ 1024 ≤ roundQ q then posInf
  else if roundQ q ≤ -2 ^ 1024 then negInf
  else fin (roundQ q)

/-- The comparison `a > b` of two doubles; false when either is a NaN. -/
def gt : Double → Double → Bool
  | nan, _ => false
  | _, nan => false
  | fin a, fin b => decide (b < a)
  | posInf, posInf => false
  | posInf, _ => true
  | negInf, _ => false
  | fin _, posInf => false
  | fin _, negInf => true

/-- The comparison `a <= b` of two doubles; false when either is a NaN. -/
def le : Double → Double → Bool
  | nan, _ => false
  | _, nan => false
  | fin a, fin b => decide (a ≤ b)
  | negInf, _ => true
  | posInf, posInf => true
  | posInf, _ => false
  | fin _, posInf => true
  | fin _, negInf => false

/-- The quotient `a / b` of two doubles.  A zero divisor is taken as +0. -/
def div : Double → Double → Double
  | nan, _ => nan
  | _, nan => nan
  | fin a, fin b =>
      if b = 0 then (if a = 0 then nan else if 0 < a then posInf else negInf)
      else round (a / b)
  | fin _, _ => fin 0
  | posInf, fin b => if 0 ≤ b then posInf else negInf
  | negInf, fin b => if 0 ≤ b then negInf else posInf
  | _, _ => nan

/-- The product `a * b` of two doubles. -/
def mul : Double → Double → Double
  | nan, _ => nan
  | _, nan => nan
  | fin a, fin b => round (a * b)
  | fin a, posInf => if a = 0 then nan else if 0 < a then posInf else negInf
  | fin a, negInf => if a = 0 then nan else if 0 < a then negInf else posInf
  | posInf, fin b => if b = 0 then nan else if 0 < b then posInf else negInf
  | negInf, fin b => if b = 0 then nan else if 0 < b then negInf else posInf
  | posInf, posInf => posInf
  | posInf, negInf => negInf
  | negInf, posInf => negInf
  | negInf, negInf => posInf

end Double

/-- The inner loop
`double result = init; for (const auto &step : processingSteps) result = step(result);`
over doubles, with `result` as the accumulator. -/
def applyStepsDouble : List (Double → Double) → Double → Double
  | [], result => result
  | step :: rest, result => applyStepsDouble rest (step result)

namespace firstway.ieee

/-- The local `double threshold = 102.0;`; 102 is a double. -/
def threshold : Double := Double.fin 102.0

/-- The lambda `[threshold](double value) { return value > threshold ? -1.0 : value; }`. -/
def filter (threshold : Double) (value : Double) : Double :=
  if Double.gt value threshold then Double.fin (-1.0) else value

/-- The lambda `[](double value) { return value > 0 ? value / 1000.0 : -1.0; }`. -/
def convert (value : Double) : Double :=
  if Double.gt value (Double.fin 0) then Double.div value (Double.fin 1000.0)
  else Double.fin (-1.0)

/-- The lambda `[](double value) { return value * 2.0; }`. -/
def scale (value : Double) : Double :=
  Double.mul value (Double.fin 2.0)

/-- The vector `processingSteps = {filter, convert, scale}`. -/
def processingSteps : List (Double → Double) := [filter threshold, convert, scale]

end firstway.ieee

namespace secondway.ieee

/-- The local `double threshold = 102.0;`; 102 is a double. -/
def threshold : Double := Double.fin 102.0

/-- The lambda `[threshold](double value) { return value > threshold ? -1.0 : value; }`. -/
def filter (threshold : Double) (value : Double) : Double :=
  if Double.gt value threshold then Double.fin (-1.0) else value

end secondway.ieee

/-! ## Shared lemmas -/

theorem firstway_batchLoop_eq (steps : List (ℚ → ℚ)) (rawData acc : List ℚ) :
    firstway.batchLoop steps rawData acc = acc ++ rawData.map (applySteps steps) := by
  induction rawData generalizing acc with
  | nil => simp [firstway.batchLoop]
  | cons value rest ih => simp [firstway.batchLoop, ih]

theorem firstway_processBatch_eq_map (steps : List (ℚ → ℚ)) (rawData : List ℚ) :
    firstway.processBatch steps rawData = rawData.map (applySteps steps) := by
  simp [firstway.processBatch, firstway_batchLoop_eq]

theorem secondway_batchLoop_eq (steps : List (ℚ → ℚ)) (rawData acc : List SensorReading) :
    secondway.batchLoop steps rawData acc
      = acc ++ rawData.map
          (fun r => (⟨applySteps steps r.value, r.timestamp, r.sensor_id⟩ : SensorReading)) := by
  induction rawData generalizing acc with
  | nil => simp [secondway.batchLoop]
  | cons value rest ih => simp [secondway.batchLoop, ih]

theorem secondway_processBatch_eq_map (steps : List (ℚ → ℚ)) (rawData : List SensorReading) :
    secondway.processBatch steps rawData
      = rawData.map
          (fun r => (⟨applySteps steps r.value, r.timestamp, r.sensor_id⟩ : SensorReading)) := by
  simp [secondway.processBatch, secondway_batchLoop_eq]

/-! ## The three steps -/

/-- C2: the convert step returns `v / 1000.0` for every `v > 0` and `-1.0` for every
`v ≤ 0`, in both routines. -/
theorem convert_spec (v : ℚ) :
    (0 < v → firstway.convert v = v / 1000.0 ∧ secondway.convert v = v / 1000.0)
      ∧ (v ≤ 0 → firstway.convert v = -1.0 ∧ secondway.convert v = -1.0) := by
  unfold firstway.convert secondway.convert
  constructor
  · intro h
    simp [h]
  · intro h
    have h' : ¬ v > 0 := not_lt.mpr h
    simp [h']

/-- C3: the scale step returns `v * factor` for every `v`, the factor being the
literal 2.0 of the program, in both routines. -/
theorem scale_spec (v : ℚ) :
    firstway.scale v = v * 2.0 ∧ secondway.scale v = v * 2.0 :=
  ⟨rfl, rfl⟩

/-- Witness for C2: both branches of convert at the concrete values 101.8 and -1.0. -/
theorem convert_spec_witness :
    (firstway.convert 101.8 = 101.8 / 1000.0 ∧ secondway.convert 101.8 = 101.8 / 1000.0)
      ∧ (firstway.convert (-1.0) = -1.0 ∧ secondway.convert (-1.0) = -1.0) :=
  ⟨(convert_spec 101.8).1 (by norm_num), (convert_spec (-1.0)).2 (by norm_num)⟩

/-! ## The pipeline -/

/-- C4: composition law.  For any three steps and any input, the inner loop over
`[s1, s2, s3]` returns `s3 (s2 (s1 v))`: each step's output is the only input of the
next step, in list order. -/
theorem applySteps_three (s1 s2 s3 : ℚ → ℚ) (v : ℚ) :
    applySteps [s1, s2, s3] v = s3 (s2 (s1 v)) :=
  rfl

/-- C5: end-to-end scenario.  With threshold 102.0 and factor 2.0, the batch loop of
`firstway` over `[102.3, 101.8, 999.9, 102.1, 101.5]` with the pipeline
`[filter, convert, scale]` produces `[-2.0, 0.2036, -2.0, -2.0, 0.203]`. -/
theorem firstway_processedData_eq :
    firstway.processBatch firstway.processingSteps firstway.rawData
      = [-2.0, 0.2036, -2.0, -2.0, 0.203] := by
  simp only [firstway.processBatch, firstway.batchLoop, applySteps, firstway.processingSteps,
    firstway.rawData, firstway.threshold, firstway.filter, firstway.convert, firstway.scale,
    List.nil_append, List.cons_append]
  norm_num

/-- C6, as stated, fails: the value -5.0 is accepted by the filter (-5.0 ≤ 102.0), yet
the pipeline `[filter, convert, scale]` yields -2.0 and not `(-5.0 / 1000.0) * 2.0`,
because convert maps every non-positive value to -1.0. -/
theorem pipeline_accepted_nonpos_counterexample :
    (-5.0 : ℚ) ≤ firstway.threshold
      ∧ applySteps firstway.processingSteps (-5.0) = -2.0
      ∧ applySteps firstway.processingSteps (-5.0) ≠ (-5.0 / 1000.0) * 2.0 := by
  simp only [applySteps, firstway.processingSteps, firstway.threshold, firstway.filter,
    firstway.convert, firstway.scale]
  norm_num

/-- C6, amended: for every accepted and positive value `v`, that is `0 < v ≤ 102.0`,
the pipeline `[filter, convert, scale]` applied to `v` yields `(v / 1000.0) * 2.0`. -/
theorem pipeline_accepted_pos (v : ℚ) (hpos : 0 < v) (hle : v ≤ firstway.threshold) :
    applySteps firstway.processingSteps v = (v / 1000.0) * 2.0 := by
  have h' : ¬ v > firstway.threshold := not_lt.mpr hle
  simp [applySteps, firstway.processingSteps, firstway.filter, firstway.convert,
    firstway.scale, h', hpos]

/-- Witness for the amended C6 at the sample value 101.8. -/
theorem pipeline_accepted_pos_witness :
    applySteps firstway.processingSteps 101.8 = (101.8 / 1000.0) * 2.0 :=
  pipeline_accepted_pos 101.8 (by norm_num) (by norm_num [firstway.threshold])

/-- C7: for every rejected value `v`, that is `v > 102.0`, the filter produces the
sentinel -1.0, convert returns the sentinel unchanged, scale multiplies it, and the
pipeline `[filter, convert, scale]` applied to `v` yields `-1.0 * 2.0 = -2.0`. -/
theorem pipeline_rejected (v : ℚ) (h : v > firstway.threshold) :
    firstway.filter firstway.threshold v = -1.0
      ∧ firstway.convert (-1.0) = -1.0
      ∧ firstway.scale (-1.0) = -1.0 * 2.0
      ∧ applySteps firstway.processingSteps v = -1.0 * 2.0
      ∧ applySteps firstway.processingSteps v = -2.0 := by
  have hf : firstway.filter firstway.threshold v = -1.0 := by
    simp [firstway.filter, h]
  have hc : firstway.convert (-1.0) = -1.0 := by
    norm_num [firstway.convert]
  have hp : applySteps firstway.processingSteps v = -1.0 * 2.0 := by
    simp only [applySteps, firstway.processingSteps, hf, hc, firstway.scale]
  refine ⟨hf, hc, rfl, hp, ?_⟩
  rw [hp]
  norm_num

/-- Witness for C7 at the sample value 102.3. -/
theorem pipeline_rejected_witness :
    applySteps firstway.processingSteps 102.3 = -2.0 :=
  (pipeline_rejected 102.3 (by norm_num [firstway.threshold])).2.2.2.2

/-! ## Batch application -/

/-- C8: batch reassembly.  For every input sequence and every index `i`, the `i`-th
output reading of the batch loop of `secondway` carries the timestamp and the sensor
id of the `i`-th input reading, and its value is the pipeline applied to the `i`-th
input value; the reading `{101.8, 1622548860.0, "sensor_2"}` becomes
`{0.2036, 1622548860.0, "sensor_2"}`. -/
theorem secondway_batch_reassembly :
    (∀ (rawData : List SensorReading) (i : ℕ) (r : SensorReading), rawData[i]? = some r →
        ∃ out : SensorReading,
          (secondway.processBatch secondway.processingSteps rawData)[i]? = some out
            ∧ out.timestamp = r.timestamp
            ∧ out.sensor_id = r.sensor_id
            ∧ out.value = applySteps secondway.processingSteps r.value)
      ∧ secondway.processBatch secondway.processingSteps [⟨101.8, 1622548860.0, "sensor_2"⟩]
          = [⟨0.2036, 1622548860.0, "sensor_2"⟩] := by
  constructor
  · intro rawData i r h
    refine ⟨⟨applySteps secondway.processingSteps r.value, r.timestamp, r.sensor_id⟩, ?_,
      rfl, rfl, rfl⟩
    rw [secondway_processBatch_eq_map, List.getElem?_map, h]
    rfl
  · simp only [secondway.processBatch, secondway.batchLoop, applySteps,
      secondway.processingSteps, secondway.threshold, secondway.filter, secondway.convert,
      secondway.scale, List.nil_append]
    norm_num

/-- Witness for C8: the reading at index 1 of the sample data of `secondway`. -/
theorem secondway_batch_reassembly_witness :
    ∃ out : SensorReading,
      (secondway.processBatch secondway.processingSteps secondway.rawData)[1]? = some out
        ∧ out.timestamp = 1622548860.0
        ∧ out.sensor_id = "sensor_2"
        ∧ out.value = applySteps secondway.processingSteps 101.8 :=
  secondway_batch_reassembly.1 secondway.rawData 1 ⟨101.8, 1622548860.0, "sensor_2"⟩ rfl

/-- C9: for every input sequence, both batch loops (over numbers in `firstway`, over
readings in `secondway`) produce an output of the same length as the input, and the
`i`-th output is the result computed from the `i`-th input. -/
theorem batch_length_and_order (steps : List (ℚ → ℚ)) (xs : List ℚ)
    (rs : List SensorReading) :
    (firstway.processBatch steps xs).length = xs.length
      ∧ (∀ i : ℕ, (firstway.processBatch steps xs)[i]? = (xs[i]?).map (applySteps steps))
      ∧ (secondway.processBatch steps rs).length = rs.length
      ∧ (∀ i : ℕ, (secondway.processBatch steps rs)[i]?
            = (rs[i]?).map (fun r =>
                (⟨applySteps steps r.value, r.timestamp, r.sensor_id⟩ : SensorReading))) := by
  refine ⟨?_, ?_, ?_, ?_⟩
  · rw [firstway_processBatch_eq_map, List.length_map]
  · intro i
    rw [firstway_processBatch_eq_map, List.getElem?_map]
  · rw [secondway_processBatch_eq_map, List.length_map]
  · intro i
    rw [secondway_processBatch_eq_map, List.getElem?_map]

/-! ## Order of the steps -/

/-- C10: order sensitivity.  For every `v` strictly between the threshold 102.0 and
threshold times factor 204.0, the pipeline `[filter, scale]` yields -2.0 and the
pipeline `[scale, filter]` yields -1.0, so the two differ; and such an input exists. -/
theorem filter_scale_order_sensitive :
    (∀ v : ℚ, firstway.threshold < v → v < firstway.threshold * 2.0 →
        applySteps [firstway.filter firstway.threshold, firstway.scale] v = -2.0
          ∧ applySteps [firstway.scale, firstway.filter firstway.threshold] v = -1.0
          ∧ applySteps [firstway.filter firstway.threshold, firstway.scale] v
              ≠ applySteps [firstway.scale, firstway.filter firstway.threshold] v)
      ∧ ∃ v : ℚ, firstway.threshold < v ∧ v < firstway.threshold * 2.0
          ∧ applySteps [firstway.filter firstway.threshold, firstway.scale] v
              ≠ applySteps [firstway.scale, firstway.filter firstway.threshold] v := by
  have key : ∀ v : ℚ, firstway.threshold < v → v < firstway.threshold * 2.0 →
      applySteps [firstway.filter firstway.threshold, firstway.scale] v = -2.0
        ∧ applySteps [firstway.scale, firstway.filter firstway.threshold] v = -1.0 := by
    intro v h1 _
    have h2 : v * 2.0 > firstway.threshold := by
      have h0 : (0 : ℚ) < firstway.threshold := by norm_num [firstway.threshold]
      have : v < v * 2.0 := by linarith
      linarith
    constructor
    · simp only [applySteps, firstway.filter, firstway.scale, gt_iff_lt, h1, if_true]
      norm_num
    · simp only [applySteps, firstway.filter, firstway.scale, h2, if_true]
  refine ⟨fun v h1 h2 => ⟨(key v h1 h2).1, (key v h1 h2).2, ?_⟩, 150, ?_, ?_, ?_⟩
  · rw [(key v h1 h2).1, (key v h1 h2).2]
    norm_num
  · norm_num [firstway.threshold]
  · norm_num [firstway.threshold]
  · have h := key 150 (by norm_num [firstway.threshold]) (by norm_num [firstway.threshold])
    rw [h.1, h.2]
    norm_num

/-- Witness for C10 at the value 150.0, which lies between 102.0 and 204.0. -/
theorem filter_scale_order_sensitive_witness :
    applySteps [firstway.filter firstway.threshold, firstway.scale] 150.0
      ≠ applySteps [firstway.scale, firstway.filter firstway.threshold] 150.0 :=
  (filter_scale_order_sensitive.1 150.0 (by norm_num [firstway.threshold])
    (by norm_num [firstway.threshold])).2.2

/-! ## Totality -/

/-- C11: totality.  For every list of steps built from filter, convert and scale and
every input, the pipeline evaluated with division as a partial operation returns a
value, the one the inner loop computes; an input above the threshold is mapped by
filter to the sentinel -1.0 and not refused; the divisor 1000.0 of convert is not
zero, so its division always has a result. -/
theorem pipeline_total (steps : List Step) (v : ℚ) :
    runSteps steps v = some (applySteps (steps.map Step.toFun) v)
      ∧ (runSteps steps v).isSome = true
      ∧ firstway.processingSteps
          = [Step.filter firstway.threshold, Step.convert, Step.scale].map Step.toFun
      ∧ (firstway.threshold < v →
          Step.run (Step.filter firstway.threshold) v = some (-1.0)
            ∧ firstway.filter firstway.threshold v = -1.0)
      ∧ (1000.0 : ℚ) ≠ 0
      ∧ checkedDiv v 1000.0 = some (v / 1000.0) := by
  have hdiv : ∀ a : ℚ, checkedDiv a 1000.0 = some (a / 1000.0) := by
    intro a
    have h0 : (1000.0 : ℚ) ≠ 0 := by norm_num
    simp [checkedDiv, h0]
  have hstep : ∀ (s : Step) (a : ℚ), s.run a = some (s.toFun a) := by
    intro s a
    cases s with
    | filter threshold => rfl
    | convert =>
        by_cases h : a > 0
        · simp only [Step.run, Step.toFun, firstway.convert, h, if_true, hdiv]
        · simp only [Step.run, Step.toFun, firstway.convert, h, if_false]
    | scale => rfl
  have hrun : ∀ (l : List Step) (a : ℚ),
      runSteps l a = some (applySteps (l.map Step.toFun) a) := by
    intro l
    induction l with
    | nil => intro a; rfl
    | cons s rest ih =>
        intro a
        simp only [runSteps, hstep, List.map_cons, applySteps, ih]
  refine ⟨hrun steps v, ?_, rfl, ?_, by norm_num, hdiv v⟩
  · rw [hrun steps v]
    rfl
  · intro h
    have hf : firstway.filter firstway.threshold v = -1.0 := by
      simp [firstway.filter, h]
    exact ⟨by rw [hstep]; exact congrArg some hf, hf⟩

/-- Witness for C11: the program's pipeline on the rejected sample value 102.3 returns
the value -2.0, and filter alone returns the sentinel. -/
theorem pipeline_total_witness :
    (runSteps [Step.filter firstway.threshold, Step.convert, Step.scale] 102.3).isSome = true
      ∧ Step.run (Step.filter firstway.threshold) 102.3 = some (-1.0) :=
  ⟨(pipeline_total [Step.filter firstway.threshold, Step.convert, Step.scale] 102.3).2.1,
    ((pipeline_total [] 102.3).2.2.2.1 (by norm_num [firstway.threshold])).1⟩

/-! ## The two routines against each other -/

/-- C12: the two routines compute the same logic.  For every sequence of readings, the
values of the readings produced by the batch loop of `secondway` are the numbers
produced by the batch loop of `firstway` on the readings' values; this holds for the
two routines' own pipelines and for any common list of steps. -/
theorem secondway_values_eq_firstway (rs : List SensorReading) :
    (secondway.processBatch secondway.processingSteps rs).map SensorReading.value
        = firstway.processBatch firstway.processingSteps (rs.map SensorReading.value)
      ∧ ∀ steps : List (ℚ → ℚ),
          (secondway.processBatch steps rs).map SensorReading.value
            = firstway.processBatch steps (rs.map SensorReading.value) := by
  have key : ∀ steps : List (ℚ → ℚ),
      (secondway.processBatch steps rs).map SensorReading.value
        = firstway.processBatch steps (rs.map SensorReading.value) := by
    intro steps
    rw [secondway_processBatch_eq_map, firstway_processBatch_eq_map, List.map_map,
      List.map_map]
    rfl
  have hsteps : secondway.processingSteps = firstway.processingSteps := rfl
  exact ⟨hsteps ▸ key firstway.processingSteps, key⟩

/-- C13 fails on the code: the manual composition calls filter and convert only, so for
the test value 101.8 it computes 0.1018 in both routines, while the pipeline
`{filter, convert, scale}` applied to 101.8 computes 0.2036; the two results differ. -/
theorem manualResult_ne_pipeline :
    firstway.manualResult = 0.1018
      ∧ applySteps firstway.processingSteps firstway.testValue = 0.2036
      ∧ firstway.manualResult ≠ applySteps firstway.processingSteps firstway.testValue
      ∧ secondway.manualResult = 0.1018
      ∧ applySteps secondway.processingSteps secondway.testValue = 0.2036
      ∧ secondway.manualResult ≠ applySteps secondway.processingSteps secondway.testValue := by
  simp only [firstway.manualResult, firstway.processingSteps, firstway.testValue,
    firstway.threshold, firstway.filter, firstway.convert, firstway.scale,
    secondway.manualResult, secondway.processingSteps, secondway.testValue,
    secondway.threshold, secondway.filter, secondway.convert, secondway.scale, applySteps]
  norm_num

/-! ## The inner loop and concatenation -/

/-- C15: the step-application loop turns concatenation of step lists into composition.
For all step lists `xs`, `ys` and every input `v`, applying `xs ++ ys` to `v` equals
applying `ys` to the result of applying `xs` to `v`, and the empty pipeline returns `v`
unchanged. -/
theorem applySteps_append (xs ys : List (ℚ → ℚ)) (v : ℚ) :
    applySteps (xs ++ ys) v = applySteps ys (applySteps xs v)
      ∧ applySteps [] v = v := by
  refine ⟨?_, rfl⟩
  induction xs generalizing v with
  | nil => rfl
  | cons step rest ih => exact ih (step v)

/-! ## Rounding to a double -/

namespace Double

theorem floor_le_roundNearestEven (x : ℚ) : ⌊x⌋ ≤ roundNearestEven x := by
  unfold roundNearestEven
  split_ifs <;> omega

theorem roundNearestEven_le_floor_add_one (x : ℚ) : roundNearestEven x ≤ ⌊x⌋ + 1 := by
  unfold roundNearestEven
  split_ifs <;> omega

theorem roundNearestEven_intCast (n : ℤ) : roundNearestEven (n : ℚ) = n := by
  unfold roundNearestEven
  simp

theorem roundNearestEven_mono {a b : ℚ} (h : a ≤ b) :
    roundNearestEven a ≤ roundNearestEven b := by
  have hf : ⌊a⌋ ≤ ⌊b⌋ := Int.floor_mono h
  rcases hf.lt_or_eq with hlt | heq
  · calc roundNearestEven a ≤ ⌊a⌋ + 1 := roundNearestEven_le_floor_add_one a
      _ ≤ ⌊b⌋ := hlt
      _ ≤ roundNearestEven b := floor_le_roundNearestEven b
  · have hab : a - ⌊a⌋ ≤ b - ⌊b⌋ := by rw [heq]; linarith
    unfold roundNearestEven
    rw [heq] at hab ⊢
    split_ifs <;> first | omega | (exfalso; linarith)

theorem roundNearestEven_eq_of_near {z : ℚ} {m : ℤ} (h1 : (m : ℚ) - 1 / 2 < z)
    (h2 : z < (m : ℚ) + 1 / 2) : roundNearestEven z = m := by
  unfold roundNearestEven
  have hfl : (⌊z⌋ : ℚ) ≤ z := Int.floor_le z
  have hfu : z < (⌊z⌋ : ℚ) + 1 := Int.lt_floor_add_one z
  have hA : m - 1 ≤ ⌊z⌋ := by
    have : ((m - 1 : ℤ) : ℚ) < (⌊z⌋ : ℚ) + 1 := by push_cast; linarith
    have : (m - 1 : ℤ) < ⌊z⌋ + 1 := by exact_mod_cast this
    omega
  have hB : ⌊z⌋ ≤ m := by
    have : (⌊z⌋ : ℚ) < ((m + 1 : ℤ) : ℚ) := by push_cast; linarith
    have : ⌊z⌋ < m + 1 := by exact_mod_cast this
    omega
  rcases (show ⌊z⌋ = m - 1 ∨ ⌊z⌋ = m by omega) with hc | hc
  · have hq : (⌊z⌋ : ℚ) = (m : ℚ) - 1 := by rw [hc]; push_cast; ring
    have h3 : ¬ z - (⌊z⌋ : ℚ) < 1 / 2 := by rw [hq]; intro h; linarith
    have h4 : 1 / 2 < z - (⌊z⌋ : ℚ) := by rw [hq]; linarith
    rw [if_neg h3, if_pos h4, hc]
    ring
  · have hq : (⌊z⌋ : ℚ) = (m : ℚ) := by rw [hc]
    have h3 : z - (⌊z⌋ : ℚ) < 1 / 2 := by rw [hq]; linarith
    rw [if_pos h3, hc]


theorem two_zpow_pos (e : ℤ) : (0 : ℚ) < 2 ^ e :=
  zpow_pos (by norm_num) e

theorem roundQ_nonneg {x : ℚ} (hx : 0 ≤ x) : 0 ≤ roundQ x := by
  unfold roundQ
  have h1 : 0 ≤ x / 2 ^ ulpExp x := div_nonneg hx (two_zpow_pos _).le
  have h2 : (0 : ℤ) ≤ roundNearestEven (x / 2 ^ ulpExp x) :=
    le_trans (Int.floor_nonneg.mpr h1) (floor_le_roundNearestEven _)
  have h3 : (0 : ℚ) ≤ (roundNearestEven (x / 2 ^ ulpExp x) : ℚ) := by exact_mod_cast h2
  exact mul_nonneg h3 (two_zpow_pos _).le

theorem zpow_split {e K : ℤ} (he : e ≤ K) :
    ∃ n : ℕ, (2 : ℚ) ^ K = ((2 ^ n : ℤ) : ℚ) * 2 ^ e := by
  obtain ⟨n, hn⟩ := Int.le.dest he
  refine ⟨n, ?_⟩
  rw [← hn, add_comm, zpow_add₀ (by norm_num : (2 : ℚ) ≠ 0), zpow_natCast]
  push_cast
  ring

theorem roundQ_le_zpow {x : ℚ} {K : ℤ} (hx : x ≤ 2 ^ K) (he : ulpExp x ≤ K) :
    roundQ x ≤ 2 ^ K := by
  obtain ⟨n, hn⟩ := zpow_split he
  have hpos := two_zpow_pos (ulpExp x)
  have h1 : x / 2 ^ ulpExp x ≤ ((2 ^ n : ℤ) : ℚ) := by
    rw [div_le_iff₀ hpos, ← hn]
    exact hx
  have h2 : roundNearestEven (x / 2 ^ ulpExp x) ≤ (2 ^ n : ℤ) := by
    have := roundNearestEven_mono h1
    rwa [roundNearestEven_intCast] at this
  have h3 : (roundNearestEven (x / 2 ^ ulpExp x) : ℚ) ≤ ((2 ^ n : ℤ) : ℚ) := by
    exact_mod_cast h2
  unfold roundQ
  rw [hn]
  exact mul_le_mul_of_nonneg_right h3 hpos.le

theorem zpow_le_roundQ {y : ℚ} {K : ℤ} (hy : 2 ^ K ≤ y) (he : ulpExp y ≤ K) :
    2 ^ K ≤ roundQ y := by
  obtain ⟨n, hn⟩ := zpow_split he
  have hpos := two_zpow_pos (ulpExp y)
  have h1 : ((2 ^ n : ℤ) : ℚ) ≤ y / 2 ^ ulpExp y := by
    rw [le_div_iff₀ hpos, ← hn]
    exact hy
  have h2 : (2 ^ n : ℤ) ≤ roundNearestEven (y / 2 ^ ulpExp y) := by
    have := roundNearestEven_mono h1
    rwa [roundNearestEven_intCast] at this
  have h3 : ((2 ^ n : ℤ) : ℚ) ≤ (roundNearestEven (y / 2 ^ ulpExp y) : ℚ) := by
    exact_mod_cast h2
  unfold roundQ
  rw [hn]
  exact mul_le_mul_of_nonneg_right h3 hpos.le

theorem roundQ_mono_of_pos {x y : ℚ} (hx : 0 < x) (hxy : x ≤ y) : roundQ x ≤ roundQ y := by
  have hy : 0 < y := lt_of_lt_of_le hx hxy
  have hlog : Int.log 2 x ≤ Int.log 2 y := Int.log_mono_right hx hxy
  have hex : ulpExp x = max (Int.log 2 x) (-1022) - 52 := by
    unfold ulpExp; rw [abs_of_pos hx]
  have hey : ulpExp y = max (Int.log 2 y) (-1022) - 52 := by
    unfold ulpExp; rw [abs_of_pos hy]
  by_cases hsame : ulpExp x = ulpExp y
  · unfold roundQ
    rw [hsame]
    have hpos := two_zpow_pos (ulpExp y)
    have h1 : x / 2 ^ ulpExp y ≤ y / 2 ^ ulpExp y := div_le_div_of_nonneg_right hxy hpos.le
    have h2 := roundNearestEven_mono h1
    have h3 : (roundNearestEven (x / 2 ^ ulpExp y) : ℚ)
        ≤ (roundNearestEven (y / 2 ^ ulpExp y) : ℚ) := by exact_mod_cast h2
    exact mul_le_mul_of_nonneg_right h3 hpos.le
  · have hK : ulpExp y = Int.log 2 y - 52 ∧ Int.log 2 x < Int.log 2 y := by
      rw [hex, hey] at hsame
      rw [hey]
      omega
    have hxlt : x < 2 ^ Int.log 2 y := by
      have := (Int.lt_zpow_iff_log_lt (b := 2) (by norm_num) hx).mpr hK.2
      simpa using this
    have hyge : (2 : ℚ) ^ Int.log 2 y ≤ y := by
      have := Int.zpow_log_le_self (b := 2) (by norm_num) hy
      simpa using this
    have hex' : ulpExp x ≤ Int.log 2 y := by rw [hex]; omega
    have hey' : ulpExp y ≤ Int.log 2 y := by rw [hK.1]; omega
    exact le_trans (roundQ_le_zpow hxlt.le hex') (zpow_le_roundQ hyge hey')

theorem roundQ_zero : roundQ 0 = 0 := by
  unfold roundQ
  simp [roundNearestEven]

theorem roundQ_mono_of_nonneg {x y : ℚ} (hx : 0 ≤ x) (hxy : x ≤ y) : roundQ x ≤ roundQ y := by
  rcases hx.lt_or_eq with h | h
  · exact roundQ_mono_of_pos h hxy
  · rw [← h, roundQ_zero]
    exact roundQ_nonneg (le_trans hx hxy)


theorem ulpExp_eq_of_normal {q : ℚ} {k : ℤ} (hk : -1022 ≤ k) (hlo : 2 ^ k ≤ |q|)
    (hhi : |q| < 2 ^ (k + 1)) : ulpExp q = k - 52 := by
  have hpos : 0 < |q| := lt_of_lt_of_le (two_zpow_pos k) hlo
  have h1 : k ≤ Int.log 2 |q| :=
    (Int.zpow_le_iff_le_log (b := 2) (by norm_num) hpos).mp (by simpa using hlo)
  have h2 : Int.log 2 |q| < k + 1 :=
    (Int.lt_zpow_iff_log_lt (b := 2) (by norm_num) hpos).mp (by simpa using hhi)
  unfold ulpExp
  omega

theorem ulpExp_eq_of_subnormal {q : ℚ} (hq0 : q ≠ 0) (hq : |q| < 2 ^ (-1022 : ℤ)) :
    ulpExp q = -1074 := by
  have hpos : 0 < |q| := abs_pos.mpr hq0
  have h2 : Int.log 2 |q| < -1022 :=
    (Int.lt_zpow_iff_log_lt (b := 2) (by norm_num) hpos).mp (by simpa using hq)
  unfold ulpExp
  omega

theorem roundQ_eq_of_normal {q : ℚ} {k m : ℤ} (hk : -1022 ≤ k) (hlo : 2 ^ k ≤ |q|)
    (hhi : |q| < 2 ^ (k + 1)) (h1 : (m : ℚ) - 1 / 2 < q / 2 ^ (k - 52))
    (h2 : q / 2 ^ (k - 52) < (m : ℚ) + 1 / 2) : roundQ q = (m : ℚ) * 2 ^ (k - 52) := by
  unfold roundQ
  rw [ulpExp_eq_of_normal hk hlo hhi, roundNearestEven_eq_of_near h1 h2]

theorem roundQ_eq_of_subnormal {q : ℚ} {m : ℤ} (hq0 : q ≠ 0) (hq : |q| < 2 ^ (-1022 : ℤ))
    (h1 : (m : ℚ) - 1 / 2 < q / 2 ^ (-1074 : ℤ))
    (h2 : q / 2 ^ (-1074 : ℤ) < (m : ℚ) + 1 / 2) : roundQ q = (m : ℚ) * 2 ^ (-1074 : ℤ) := by
  unfold roundQ
  rw [ulpExp_eq_of_subnormal hq0 hq, roundNearestEven_eq_of_near h1 h2]

theorem round_eq_fin {q : ℚ} (h1 : roundQ q < 2 ^ 1024) (h2 : -2 ^ 1024 < roundQ q) :
    round q = fin (roundQ q) := by
  unfold round
  rw [if_neg (not_le.mpr h1), if_neg (not_le.mpr h2)]

theorem roundQ_neg_two : roundQ (-2) = -2 := by
  have h := roundQ_eq_of_normal (q := -2) (k := 1) (m := -4503599627370496)
    (by norm_num) (by norm_num) (by norm_num) (by norm_num) (by norm_num)
  rw [h]
  norm_num

theorem roundQ_lit_102 : roundQ 0.102 = 7349874591868649 * 2 ^ (-56 : ℤ) := by
  have habs : |(0.102 : ℚ)| = 0.102 := abs_of_pos (by norm_num)
  have h := roundQ_eq_of_normal (q := 0.102) (k := -4) (m := 7349874591868649)
    (by norm_num) (by rw [habs]; norm_num) (by rw [habs]; norm_num) (by norm_num)
    (by norm_num)
  rw [h]
  norm_num

theorem roundQ_lit_204 : roundQ 0.204 = 7349874591868649 * 2 ^ (-55 : ℤ) := by
  have habs : |(0.204 : ℚ)| = 0.204 := abs_of_pos (by norm_num)
  have h := roundQ_eq_of_normal (q := 0.204) (k := -3) (m := 7349874591868649)
    (by norm_num) (by rw [habs]; norm_num) (by rw [habs]; norm_num) (by norm_num)
    (by norm_num)
  rw [h]
  norm_num


theorem roundQ_twice_lit_102 :
    roundQ (7349874591868649 * 2 ^ (-56 : ℤ) * 2) = 7349874591868649 * 2 ^ (-55 : ℤ) := by
  have habs : |(7349874591868649 * 2 ^ (-56 : ℤ) * 2 : ℚ)| = 7349874591868649 * 2 ^ (-56 : ℤ) * 2 :=
    abs_of_pos (by norm_num)
  have h := roundQ_eq_of_normal (q := 7349874591868649 * 2 ^ (-56 : ℤ) * 2) (k := -3)
    (m := 7349874591868649)
    (by norm_num) (by rw [habs]; norm_num) (by rw [habs]; norm_num) (by norm_num)
    (by norm_num)
  rw [h]
  norm_num

theorem roundQ_subnormal_scaled {t : ℚ} {m : ℤ} (ht0 : 0 < t) (ht : t < 2 ^ 52)
    (h1 : (m : ℚ) - 1 / 2 < t) (h2 : t < (m : ℚ) + 1 / 2) :
    roundQ (t * 2 ^ (-1074 : ℤ)) = (m : ℚ) * 2 ^ (-1074 : ℤ) := by
  have hu : (0 : ℚ) < 2 ^ (-1074 : ℤ) := two_zpow_pos _
  have hq : 0 < t * 2 ^ (-1074 : ℤ) := mul_pos ht0 hu
  have hdiv : t * 2 ^ (-1074 : ℤ) / 2 ^ (-1074 : ℤ) = t := by
    field_simp
  have hlt : t * 2 ^ (-1074 : ℤ) < 2 ^ (-1022 : ℤ) := by
    have h52 : (2 : ℚ) ^ (-1022 : ℤ) = 2 ^ 52 * 2 ^ (-1074 : ℤ) := by
      rw [← zpow_natCast, ← zpow_add₀ (by norm_num : (2 : ℚ) ≠ 0)]
      norm_num
    rw [h52]
    exact mul_lt_mul_of_pos_right ht hu
  exact roundQ_eq_of_subnormal hq.ne.symm (by rw [abs_of_pos hq]; exact hlt)
    (by rw [hdiv]; exact h1) (by rw [hdiv]; exact h2)

theorem roundQ_min_subnormal : roundQ (2 ^ (-1074 : ℤ)) = 2 ^ (-1074 : ℤ) := by
  have h := roundQ_subnormal_scaled (t := 1) (m := 1) (by norm_num) (by norm_num)
    (by norm_num) (by norm_num)
  simpa using h

theorem roundQ_min_subnormal_div : roundQ (2 ^ (-1074 : ℤ) / 1000.0) = 0 := by
  have h := roundQ_subnormal_scaled (t := 1 / 1000) (m := 0) (by norm_num) (by norm_num)
    (by norm_num) (by norm_num)
  have he : (2 : ℚ) ^ (-1074 : ℤ) / 1000.0 = 1 / 1000 * 2 ^ (-1074 : ℤ) := by
    norm_num
  rw [he, h]
  simp

theorem roundQ_subnormal_600 : roundQ (600 * 2 ^ (-1074 : ℤ)) = 600 * 2 ^ (-1074 : ℤ) := by
  have h := roundQ_subnormal_scaled (t := 600) (m := 600) (by norm_num) (by norm_num)
    (by norm_num) (by norm_num)
  simpa using h

theorem roundQ_subnormal_600_div_1000 :
    roundQ (600 * 2 ^ (-1074 : ℤ) / 1000.0) = 2 ^ (-1074 : ℤ) := by
  have h := roundQ_subnormal_scaled (t := 3 / 5) (m := 1) (by norm_num) (by norm_num)
    (by norm_num) (by norm_num)
  have he : (600 : ℚ) * 2 ^ (-1074 : ℤ) / 1000.0 = 3 / 5 * 2 ^ (-1074 : ℤ) := by
    norm_num
  rw [he, h]
  simp

theorem roundQ_subnormal_600_div_500 :
    roundQ (600 * 2 ^ (-1074 : ℤ) / 500.0) = 2 ^ (-1074 : ℤ) := by
  have h := roundQ_subnormal_scaled (t := 6 / 5) (m := 1) (by norm_num) (by norm_num)
    (by norm_num) (by norm_num)
  have he : (600 : ℚ) * 2 ^ (-1074 : ℤ) / 500.0 = 6 / 5 * 2 ^ (-1074 : ℤ) := by
    norm_num
  rw [he, h]
  simp

theorem roundQ_min_subnormal_twice :
    roundQ (2 ^ (-1074 : ℤ) * 2.0) = 2 * 2 ^ (-1074 : ℤ) := by
  have h := roundQ_subnormal_scaled (t := 2) (m := 2) (by norm_num) (by norm_num)
    (by norm_num) (by norm_num)
  have he : (2 : ℚ) ^ (-1074 : ℤ) * 2.0 = 2 * 2 ^ (-1074 : ℤ) := by
    norm_num
  rw [he, h]
  simp

end Double

/-! ## The two models on finite values -/

theorem round_neg_one : Double.round (-1.0) = Double.fin (-1.0) := by
  have h1 : (-1.0 : ℚ) = -1 := by norm_num
  have hq : Double.roundQ (-1) = -1 := by
    have h := Double.roundQ_eq_of_normal (q := -1) (k := 0) (m := -4503599627370496)
      (by norm_num) (by norm_num) (by norm_num) (by norm_num) (by norm_num)
    rw [h]
    norm_num
  rw [h1, Double.round_eq_fin (by rw [hq]; norm_num) (by rw [hq]; norm_num), hq]

/-- On finite values the filter over doubles is the filter of the exact model. -/
theorem ieee_filter_fin (t q : ℚ) :
    firstway.ieee.filter (Double.fin t) (Double.fin q) = Double.fin (firstway.filter t q) := by
  unfold firstway.ieee.filter firstway.filter
  by_cases h : t < q
  · have hg : Double.gt (Double.fin q) (Double.fin t) = true := decide_eq_true h
    rw [if_pos hg, if_pos h]
  · have hg : ¬ Double.gt (Double.fin q) (Double.fin t) = true := by
      simp [Double.gt, h]
    rw [if_neg hg, if_neg h]

/-- On finite values convert over doubles is convert of the exact model, rounded. -/
theorem ieee_convert_fin (q : ℚ) :
    firstway.ieee.convert (Double.fin q) = Double.round (firstway.convert q) := by
  unfold firstway.ieee.convert firstway.convert
  by_cases h : 0 < q
  · have hg : Double.gt (Double.fin q) (Double.fin 0) = true := decide_eq_true h
    have h1000 : (1000.0 : ℚ) ≠ 0 := by norm_num
    rw [if_pos hg, if_pos h]
    show (if (1000.0 : ℚ) = 0 then (if q = 0 then Double.nan else if 0 < q then Double.posInf
      else Double.negInf) else Double.round (q / 1000.0)) = Double.round (q / 1000.0)
    rw [if_neg h1000]
  · have hg : ¬ Double.gt (Double.fin q) (Double.fin 0) = true := by
      simp [Double.gt, h]
    rw [if_neg hg, if_neg h, round_neg_one]

/-- On finite values scale over doubles is scale of the exact model, rounded. -/
theorem ieee_scale_fin (q : ℚ) :
    firstway.ieee.scale (Double.fin q) = Double.round (firstway.scale q) :=
  rfl

/-! ## The filter on doubles -/

/-- C1, as stated, fails on a NaN: `NaN <= 102.0` is false, so the claim gives -1.0, but
`NaN > 102.0` is false as well and the filter of both routines returns the NaN
unchanged. -/
theorem filter_nan_counterexample :
    firstway.ieee.filter firstway.ieee.threshold Double.nan
        ≠ (if Double.le Double.nan (Double.fin 102.0) then Double.nan else Double.fin (-1.0))
      ∧ secondway.ieee.filter secondway.ieee.threshold Double.nan
        ≠ (if Double.le Double.nan (Double.fin 102.0) then Double.nan else Double.fin (-1.0))
      ∧ Double.le Double.nan (Double.fin 102.0) = false
      ∧ firstway.ieee.filter firstway.ieee.threshold Double.nan = Double.nan
      ∧ secondway.ieee.filter secondway.ieee.threshold Double.nan = Double.nan := by
  simp [firstway.ieee.filter, secondway.ieee.filter, Double.gt, Double.le]

/-- C1, amended: for every value `v` that is not a NaN (the infinities included), the
filter step with threshold 102.0 returns `v` when `v <= 102.0` and -1.0 otherwise, in
both routines. -/
theorem filter_threshold_spec_of_ne_nan (v : Double) (h : v ≠ Double.nan) :
    firstway.ieee.filter firstway.ieee.threshold v
        = (if Double.le v (Double.fin 102.0) then v else Double.fin (-1.0))
      ∧ secondway.ieee.filter secondway.ieee.threshold v
        = (if Double.le v (Double.fin 102.0) then v else Double.fin (-1.0)) := by
  cases v with
  | nan => exact absurd rfl h
  | posInf =>
      simp [firstway.ieee.filter, secondway.ieee.filter, firstway.ieee.threshold,
        secondway.ieee.threshold, Double.gt, Double.le]
  | negInf =>
      simp [firstway.ieee.filter, secondway.ieee.filter, firstway.ieee.threshold,
        secondway.ieee.threshold, Double.gt, Double.le]
  | fin q =>
      by_cases hq : q ≤ 102.0
      · have hq' : ¬ (102.0 : ℚ) < q := not_lt.mpr hq
        simp [firstway.ieee.filter, secondway.ieee.filter, firstway.ieee.threshold,
          secondway.ieee.threshold, Double.gt, Double.le, hq, hq']
      · have hq' : (102.0 : ℚ) < q := not_le.mp hq
        simp [firstway.ieee.filter, secondway.ieee.filter, firstway.ieee.threshold,
          secondway.ieee.threshold, Double.gt, Double.le, hq, hq']

/-- Witness for the amended C1 at the double 102.5. -/
theorem filter_threshold_spec_of_ne_nan_witness :
    firstway.ieee.filter firstway.ieee.threshold (Double.fin 102.5)
        = (if Double.le (Double.fin 102.5) (Double.fin 102.0) then Double.fin 102.5
            else Double.fin (-1.0))
      ∧ secondway.ieee.filter secondway.ieee.threshold (Double.fin 102.5)
        = (if Double.le (Double.fin 102.5) (Double.fin 102.0) then Double.fin 102.5
            else Double.fin (-1.0)) :=
  filter_threshold_spec_of_ne_nan (Double.fin 102.5) (by simp)

/-! ## Characterisation of the program's pipeline on doubles -/

theorem mul_fin_fin_double (a b : ℚ) :
    Double.mul (Double.fin a) (Double.fin b) = Double.round (a * b) :=
  rfl

theorem div_fin_fin_double (a b : ℚ) (hb : b ≠ 0) :
    Double.div (Double.fin a) (Double.fin b) = Double.round (a / b) := by
  show (if b = 0 then (if a = 0 then Double.nan else if 0 < a then Double.posInf
    else Double.negInf) else Double.round (a / b)) = Double.round (a / b)
  rw [if_neg hb]

theorem scale_sentinel_double :
    firstway.ieee.scale (Double.fin (-1.0)) = Double.fin (-2.0) := by
  have h2 : ((-1.0 : ℚ) * 2.0) = -2 := by norm_num
  have h3 : (-2.0 : ℚ) = -2 := by norm_num
  unfold firstway.ieee.scale
  rw [mul_fin_fin_double, h2, h3, Double.round_eq_fin (by rw [Double.roundQ_neg_two]; norm_num)
    (by rw [Double.roundQ_neg_two]; norm_num), Double.roundQ_neg_two]

theorem convert_scale_pos_double {q : ℚ} (hpos : 0 < q) (hle : q ≤ 102.0) :
    ∃ r : ℚ, firstway.ieee.scale (firstway.ieee.convert (Double.fin q)) = Double.fin r
      ∧ 0 ≤ r ∧ r ≤ 7349874591868649 * 2 ^ (-55 : ℤ) := by
  have hc : (7349874591868649 : ℚ) * 2 ^ (-56 : ℤ) < 1 := by norm_num
  have hbig : (1 : ℚ) ≤ 2 ^ 1024 := one_le_pow₀ (by norm_num)
  have h1 : 0 ≤ q / 1000.0 := div_nonneg hpos.le (by norm_num)
  have h1' : q / 1000.0 ≤ 0.102 := by
    rw [div_le_iff₀ (by norm_num)]
    norm_num at hle ⊢
    linarith
  have hr1lo : 0 ≤ Double.roundQ (q / 1000.0) := Double.roundQ_nonneg h1
  have hr1hi : Double.roundQ (q / 1000.0) ≤ 7349874591868649 * 2 ^ (-56 : ℤ) := by
    rw [← Double.roundQ_lit_102]
    exact Double.roundQ_mono_of_nonneg h1 h1'
  have hdiv : Double.div (Double.fin q) (Double.fin 1000.0)
      = Double.fin (Double.roundQ (q / 1000.0)) := by
    have h1000 : (1000.0 : ℚ) ≠ 0 := by norm_num
    rw [div_fin_fin_double q 1000.0 h1000]
    exact Double.round_eq_fin (by linarith) (by linarith)
  have h2 : 0 ≤ Double.roundQ (q / 1000.0) * 2.0 := mul_nonneg hr1lo (by norm_num)
  have h2' : Double.roundQ (q / 1000.0) * 2.0 ≤ 7349874591868649 * 2 ^ (-56 : ℤ) * 2 := by
    norm_num at hr1hi ⊢
    linarith
  have hr2lo : 0 ≤ Double.roundQ (Double.roundQ (q / 1000.0) * 2.0) := Double.roundQ_nonneg h2
  have hr2hi : Double.roundQ (Double.roundQ (q / 1000.0) * 2.0)
      ≤ 7349874591868649 * 2 ^ (-55 : ℤ) := by
    rw [← Double.roundQ_twice_lit_102]
    exact Double.roundQ_mono_of_nonneg h2 h2'
  have hd : (7349874591868649 : ℚ) * 2 ^ (-55 : ℤ) < 1 := by norm_num
  refine ⟨Double.roundQ (Double.roundQ (q / 1000.0) * 2.0), ?_, hr2lo, hr2hi⟩
  have hgt : Double.gt (Double.fin q) (Double.fin 0) = true := by
    simp [Double.gt, hpos]
  unfold firstway.ieee.convert
  rw [if_pos hgt, hdiv]
  unfold firstway.ieee.scale
  rw [mul_fin_fin_double]
  exact Double.round_eq_fin (by linarith) (by linarith)

theorem pipeline_double_unfold (v : Double) :
    applyStepsDouble firstway.ieee.processingSteps v
      = firstway.ieee.scale (firstway.ieee.convert
          (firstway.ieee.filter firstway.ieee.threshold v)) :=
  rfl

theorem convert_scale_of_not_gt_double {x : Double}
    (h : Double.gt x (Double.fin 0) = false) :
    firstway.ieee.scale (firstway.ieee.convert x) = Double.fin (-2.0) := by
  unfold firstway.ieee.convert
  rw [h]
  exact scale_sentinel_double

theorem pipeline_double_eq (v : Double) :
    applyStepsDouble firstway.ieee.processingSteps v
      = (if Double.gt v (Double.fin 0) = true ∧ Double.le v (Double.fin 102.0) = true
          then Double.mul (Double.div v (Double.fin 1000.0)) (Double.fin 2.0)
          else Double.fin (-2.0)) := by
  have hsent : Double.gt (Double.fin (-1.0)) (Double.fin 0) = false := by
    norm_num [Double.gt]
  rw [pipeline_double_unfold]
  cases v with
  | nan =>
      have hf : firstway.ieee.filter firstway.ieee.threshold Double.nan = Double.nan := by
        simp [firstway.ieee.filter, Double.gt]
      rw [hf, convert_scale_of_not_gt_double (by simp [Double.gt])]
      simp [Double.gt]
  | posInf =>
      have hf : firstway.ieee.filter firstway.ieee.threshold Double.posInf
          = Double.fin (-1.0) := by
        simp [firstway.ieee.filter, firstway.ieee.threshold, Double.gt]
      rw [hf, convert_scale_of_not_gt_double hsent]
      simp [Double.le]
  | negInf =>
      have hf : firstway.ieee.filter firstway.ieee.threshold Double.negInf
          = Double.negInf := by
        simp [firstway.ieee.filter, firstway.ieee.threshold, Double.gt]
      rw [hf, convert_scale_of_not_gt_double (by simp [Double.gt])]
      simp [Double.gt]
  | fin q =>
      by_cases h1 : (102.0 : ℚ) < q
      · have hf : firstway.ieee.filter firstway.ieee.threshold (Double.fin q)
            = Double.fin (-1.0) := by
          simp [firstway.ieee.filter, firstway.ieee.threshold, Double.gt, h1]
        have hle : ¬ q ≤ 102.0 := not_le.mpr h1
        rw [hf, convert_scale_of_not_gt_double hsent]
        simp [Double.le, hle]
      · have hf : firstway.ieee.filter firstway.ieee.threshold (Double.fin q)
            = Double.fin q := by
          simp [firstway.ieee.filter, firstway.ieee.threshold, Double.gt, h1]
        have hle : q ≤ 102.0 := not_lt.mp h1
        rw [hf]
        by_cases h2 : 0 < q
        · have hgt : Double.gt (Double.fin q) (Double.fin 0) = true := by
            simp [Double.gt, h2]
          have hle' : Double.le (Double.fin q) (Double.fin 102.0) = true := by
            simp [Double.le, hle]
          rw [if_pos ⟨hgt, hle'⟩]
          unfold firstway.ieee.convert firstway.ieee.scale
          rw [if_pos hgt]
        · have hgt : Double.gt (Double.fin q) (Double.fin 0) = false := by
            simp [Double.gt, h2]
          rw [convert_scale_of_not_gt_double hgt]
          simp [hgt]

theorem round_lit_204 :
    Double.round 0.204 = Double.fin (7349874591868649 * 2 ^ (-55 : ℤ)) := by
  have hd : (7349874591868649 : ℚ) * 2 ^ (-55 : ℤ) < 1 := by norm_num
  have hd0 : (0 : ℚ) ≤ 7349874591868649 * 2 ^ (-55 : ℤ) := by norm_num
  have hbig : (1 : ℚ) ≤ 2 ^ 1024 := one_le_pow₀ (by norm_num)
  rw [Double.round_eq_fin (by rw [Double.roundQ_lit_204]; linarith)
    (by rw [Double.roundQ_lit_204]; linarith), Double.roundQ_lit_204]

theorem pipeline_double_range (v : Double) :
    applyStepsDouble firstway.ieee.processingSteps v = Double.fin (-2.0)
      ∨ (Double.le (Double.fin 0) (applyStepsDouble firstway.ieee.processingSteps v) = true
          ∧ Double.le (applyStepsDouble firstway.ieee.processingSteps v)
              (Double.round 0.204) = true) := by
  by_cases h : Double.gt v (Double.fin 0) = true ∧ Double.le v (Double.fin 102.0) = true
  · right
    cases v with
    | nan => simp [Double.gt] at h
    | posInf => simp [Double.le] at h
    | negInf => simp [Double.gt] at h
    | fin q =>
        have hpos : 0 < q := by simpa [Double.gt] using h.1
        have hle : q ≤ 102.0 := by simpa [Double.le] using h.2
        have hf : firstway.ieee.filter firstway.ieee.threshold (Double.fin q)
            = Double.fin q := by
          have h1 : ¬ (102.0 : ℚ) < q := not_lt.mpr hle
          simp [firstway.ieee.filter, firstway.ieee.threshold, Double.gt, h1]
        obtain ⟨r, hr, hr0, hr1⟩ := convert_scale_pos_double hpos hle
        rw [pipeline_double_unfold, hf, hr, round_lit_204]
        exact ⟨decide_eq_true hr0, decide_eq_true hr1⟩
  · left
    rw [pipeline_double_eq, if_neg h]

/-- C14, amended: characterisation of the pipeline `[filter 102.0, convert, scale]` in
double arithmetic.  For every `v` the result is `(v / 1000.0) * 2.0`, as the program
computes it, when `0 < v <= 102.0`, and -2.0 otherwise (`v <= 0`, `v > 102.0` or `v` a
NaN); so every output is -2.0 or lies in the interval `[0, 0.204]`; and a non-positive
input, which passes the filter unchanged, gives the same output as an input rejected by
the filter. -/
theorem pipeline_characterisation_double (v : Double) :
    applyStepsDouble firstway.ieee.processingSteps v
        = (if Double.gt v (Double.fin 0) = true ∧ Double.le v (Double.fin 102.0) = true
            then Double.mul (Double.div v (Double.fin 1000.0)) (Double.fin 2.0)
            else Double.fin (-2.0))
      ∧ (applyStepsDouble firstway.ieee.processingSteps v = Double.fin (-2.0)
          ∨ (Double.le (Double.fin 0) (applyStepsDouble firstway.ieee.processingSteps v) = true
              ∧ Double.le (applyStepsDouble firstway.ieee.processingSteps v)
                  (Double.round 0.204) = true))
      ∧ ∀ a b : Double, Double.le a (Double.fin 0) = true →
          Double.gt b firstway.ieee.threshold = true →
          firstway.ieee.filter firstway.ieee.threshold a = a
            ∧ firstway.ieee.filter firstway.ieee.threshold b = Double.fin (-1.0)
            ∧ applyStepsDouble firstway.ieee.processingSteps a
                = applyStepsDouble firstway.ieee.processingSteps b := by
  refine ⟨pipeline_double_eq v, pipeline_double_range v, ?_⟩
  intro a b ha hb
  have hfb : firstway.ieee.filter firstway.ieee.threshold b = Double.fin (-1.0) := by
    unfold firstway.ieee.filter
    rw [if_pos hb]
  have hfa : firstway.ieee.filter firstway.ieee.threshold a = a := by
    cases a with
    | nan => simp [firstway.ieee.filter, Double.gt]
    | posInf => simp [Double.le] at ha
    | negInf => simp [firstway.ieee.filter, firstway.ieee.threshold, Double.gt]
    | fin q =>
        have hq : q ≤ 0 := by simpa [Double.le] using ha
        have hq' : ¬ (102.0 : ℚ) < q := by
          have : (0 : ℚ) < 102.0 := by norm_num
          exact not_lt.mpr (by linarith)
        simp [firstway.ieee.filter, firstway.ieee.threshold, Double.gt, hq']
  have ha' : ¬ (Double.gt a (Double.fin 0) = true ∧ Double.le a (Double.fin 102.0) = true) := by
    intro hc
    cases a with
    | nan => simp [Double.gt] at hc
    | posInf => simp [Double.le] at ha
    | negInf => simp [Double.gt] at hc
    | fin q =>
        have hq : q ≤ 0 := by simpa [Double.le] using ha
        have hq' : 0 < q := by simpa [Double.gt] using hc.1
        linarith
  have hb' : ¬ (Double.gt b (Double.fin 0) = true ∧ Double.le b (Double.fin 102.0) = true) := by
    intro hc
    cases b with
    | nan => simp [Double.gt] at hb
    | posInf => simp [Double.le] at hc
    | negInf => simp [firstway.ieee.threshold, Double.gt] at hb
    | fin q =>
        have hq : (102.0 : ℚ) < q := by simpa [firstway.ieee.threshold, Double.gt] using hb
        have hq' : q ≤ 102.0 := by simpa [Double.le] using hc.2
        linarith
  refine ⟨hfa, hfb, ?_⟩
  rw [pipeline_double_eq a, pipeline_double_eq b, if_neg ha', if_neg hb']

/-- Witness for the amended C14: the non-positive value -5.0 and the rejected value
+infinity give the same output. -/
theorem pipeline_characterisation_double_witness :
    applyStepsDouble firstway.ieee.processingSteps (Double.fin (-5.0))
      = applyStepsDouble firstway.ieee.processingSteps Double.posInf :=
  ((pipeline_characterisation_double Double.nan).2.2 (Double.fin (-5.0)) Double.posInf
    (by norm_num [Double.le]) (by simp [firstway.ieee.threshold, Double.gt])).2.2

/-- C14, as stated, fails on doubles.  The smallest positive double `2 ^ (-1074)` is
accepted and positive, but `value / 1000.0` underflows to 0 and the pipeline returns 0,
which is neither -2.0 nor in `(0, 0.204]`.  And for the double `600 * 2 ^ (-1074)` the
pipeline returns `2 * 2 ^ (-1074)` while `v / 500` is `2 ^ (-1074)`, so the result is
not `v / 500`. -/
theorem pipeline_underflow_counterexample :
    Double.round (2 ^ (-1074 : ℤ)) = Double.fin (2 ^ (-1074 : ℤ))
      ∧ Double.gt (Double.fin (2 ^ (-1074 : ℤ))) (Double.fin 0) = true
      ∧ Double.le (Double.fin (2 ^ (-1074 : ℤ))) (Double.fin 102.0) = true
      ∧ applyStepsDouble firstway.ieee.processingSteps (Double.fin (2 ^ (-1074 : ℤ)))
          = Double.fin 0
      ∧ applyStepsDouble firstway.ieee.processingSteps (Double.fin (2 ^ (-1074 : ℤ)))
          ≠ Double.fin (-2.0)
      ∧ Double.gt (applyStepsDouble firstway.ieee.processingSteps
          (Double.fin (2 ^ (-1074 : ℤ)))) (Double.fin 0) = false
      ∧ Double.round (600 * 2 ^ (-1074 : ℤ)) = Double.fin (600 * 2 ^ (-1074 : ℤ))
      ∧ applyStepsDouble firstway.ieee.processingSteps (Double.fin (600 * 2 ^ (-1074 : ℤ)))
          = Double.fin (2 * 2 ^ (-1074 : ℤ))
      ∧ Double.div (Double.fin (600 * 2 ^ (-1074 : ℤ))) (Double.fin 500.0)
          = Double.fin (2 ^ (-1074 : ℤ))
      ∧ applyStepsDouble firstway.ieee.processingSteps (Double.fin (600 * 2 ^ (-1074 : ℤ)))
          ≠ Double.div (Double.fin (600 * 2 ^ (-1074 : ℤ))) (Double.fin 500.0) := by
  have hu : (0 : ℚ) < 2 ^ (-1074 : ℤ) := Double.two_zpow_pos _
  have hu1 : (2 : ℚ) ^ (-1074 : ℤ) < 1 := zpow_lt_one_of_neg₀ (by norm_num) (by norm_num)
  have hbig : (1 : ℚ) ≤ 2 ^ 1024 := one_le_pow₀ (by norm_num)
  have h102 : (1 : ℚ) < 102.0 := by norm_num
  -- the smallest positive double
  have hgt : Double.gt (Double.fin (2 ^ (-1074 : ℤ))) (Double.fin 0) = true :=
    decide_eq_true hu
  have hle : Double.le (Double.fin (2 ^ (-1074 : ℤ))) (Double.fin 102.0) = true :=
    decide_eq_true (by linarith)
  have hrep : Double.round (2 ^ (-1074 : ℤ)) = Double.fin (2 ^ (-1074 : ℤ)) := by
    rw [Double.round_eq_fin (by rw [Double.roundQ_min_subnormal]; linarith)
      (by rw [Double.roundQ_min_subnormal]; linarith), Double.roundQ_min_subnormal]
  have hdiv : Double.div (Double.fin (2 ^ (-1074 : ℤ))) (Double.fin 1000.0) = Double.fin 0 := by
    rw [div_fin_fin_double _ _ (by norm_num),
      Double.round_eq_fin (by rw [Double.roundQ_min_subnormal_div]; linarith)
        (by rw [Double.roundQ_min_subnormal_div]; linarith), Double.roundQ_min_subnormal_div]
  have hmul : Double.mul (Double.fin 0) (Double.fin 2.0) = Double.fin 0 := by
    rw [mul_fin_fin_double, zero_mul,
      Double.round_eq_fin (by rw [Double.roundQ_zero]; linarith)
        (by rw [Double.roundQ_zero]; linarith), Double.roundQ_zero]
  have hout : applyStepsDouble firstway.ieee.processingSteps (Double.fin (2 ^ (-1074 : ℤ)))
      = Double.fin 0 := by
    rw [pipeline_double_eq, if_pos ⟨hgt, hle⟩, hdiv, hmul]
  -- the double 600 * 2^-1074
  have hv : (0 : ℚ) < 600 * 2 ^ (-1074 : ℤ) := mul_pos (by norm_num) hu
  have hv1 : (600 : ℚ) * 2 ^ (-1074 : ℤ) < 1 := by
    have : (2 : ℚ) ^ (-1074 : ℤ) < 2 ^ (-10 : ℤ) :=
      zpow_lt_zpow_right₀ (by norm_num) (by norm_num)
    have h10 : (2 : ℚ) ^ (-10 : ℤ) = 1 / 1024 := by norm_num
    rw [h10] at this
    calc (600 : ℚ) * 2 ^ (-1074 : ℤ) < 600 * (1 / 1024) :=
          mul_lt_mul_of_pos_left this (by norm_num)
      _ < 1 := by norm_num
  have hgt6 : Double.gt (Double.fin (600 * 2 ^ (-1074 : ℤ))) (Double.fin 0) = true :=
    decide_eq_true hv
  have hle6 : Double.le (Double.fin (600 * 2 ^ (-1074 : ℤ))) (Double.fin 102.0) = true :=
    decide_eq_true (by linarith)
  have hrep6 : Double.round (600 * 2 ^ (-1074 : ℤ)) = Double.fin (600 * 2 ^ (-1074 : ℤ)) := by
    rw [Double.round_eq_fin (by rw [Double.roundQ_subnormal_600]; linarith)
      (by rw [Double.roundQ_subnormal_600]; linarith), Double.roundQ_subnormal_600]
  have hdiv6 : Double.div (Double.fin (600 * 2 ^ (-1074 : ℤ))) (Double.fin 1000.0)
      = Double.fin (2 ^ (-1074 : ℤ)) := by
    rw [div_fin_fin_double _ _ (by norm_num),
      Double.round_eq_fin (by rw [Double.roundQ_subnormal_600_div_1000]; linarith)
        (by rw [Double.roundQ_subnormal_600_div_1000]; linarith),
      Double.roundQ_subnormal_600_div_1000]
  have hmul6 : Double.mul (Double.fin (2 ^ (-1074 : ℤ))) (Double.fin 2.0)
      = Double.fin (2 * 2 ^ (-1074 : ℤ)) := by
    rw [mul_fin_fin_double,
      Double.round_eq_fin (by rw [Double.roundQ_min_subnormal_twice]; linarith)
        (by rw [Double.roundQ_min_subnormal_twice]; linarith),
      Double.roundQ_min_subnormal_twice]
  have hout6 : applyStepsDouble firstway.ieee.processingSteps
      (Double.fin (600 * 2 ^ (-1074 : ℤ))) = Double.fin (2 * 2 ^ (-1074 : ℤ)) := by
    rw [pipeline_double_eq, if_pos ⟨hgt6, hle6⟩, hdiv6, hmul6]
  have hdiv500 : Double.div (Double.fin (600 * 2 ^ (-1074 : ℤ))) (Double.fin 500.0)
      = Double.fin (2 ^ (-1074 : ℤ)) := by
    rw [div_fin_fin_double _ _ (by norm_num),
      Double.round_eq_fin (by rw [Double.roundQ_subnormal_600_div_500]; linarith)
        (by rw [Double.roundQ_subnormal_600_div_500]; linarith),
      Double.roundQ_subnormal_600_div_500]
  refine ⟨hrep, hgt, hle, hout, ?_, ?_, hrep6, hout6, hdiv500, ?_⟩
  · rw [hout]
    intro h
    injection h with h
    norm_num at h
  · rw [hout]
    simp [Double.gt]
  · rw [hout6, hdiv500]
    intro h
    injection h with h
    linarith
